import Mathlib

/-
Verification development for the multi-room chat relay server (src/server.py).

The shallow embedding below mirrors the Python source:
* Python dicts (`clients`, `user_rooms`, `rooms`, `history_cache`) become
  association lists `List (String × α)` with insert-or-replace update (`dset`),
  lookup (`dget`) and removal (`dpop`); Python sets of usernames become
  duplicate-free lists with `sadd` / `sdiscard`.
* `str.strip()` is embedded as `String.trim`, `sorted(...)` as the insertion
  sort `sortStr`, falsy tests (`if not s`, `if room and ...`) as emptiness
  tests on strings / `pyTruthy` on optional strings.
* Outbound I/O (send_json, ws.close, file appends, broadcast calls) is
  recorded as a list of `Eff` effects returned next to the new state.
* The durable history file is external input: `load_history` takes the file
  content (`none` when the file is absent or unreadable) and the connection
  handlers take the loader result as a function argument `loadH`.
-/

namespace ChatServer

/-- Outbound JSON payloads built by server.py (send_json arguments). -/
inductive Payload where
  | error (msg : String)
  | loginOk (username : String) (users : List String) (room : String)
  | info (msg : String) (room : String)
  | message (sender : String) (text : String) (ts : Nat) (room : String)
  | roomsList (rooms : List String)
  | roomUsers (room : String) (users : List String)
  | userJoined (username : String) (room : String) (roomUsers : List String)
  | userLeft (username : String) (room : String) (roomUsers : List String)
  | userLeftRoom (username : String) (room : String) (roomUsers : List String)
  | userJoinedRoom (username : String) (room : String) (roomUsers : List String)
  deriving DecidableEq, Repr

/-- Parsed inbound client events (`msg = json.loads(raw)` with its `type`
field dispatched in ws_endpoint).  Optional fields model `msg.get(...)`. -/
inductive InEvent where
  | login (username : Option String)
  | message (text : Option String)
  | roomsQuery
  | roomWho
  | joinRoom (room : Option String)
  | other (t : String)
  deriving DecidableEq, Repr

/-- Observable effects of one handler step: a send on the handled
connection, closing it, a durable log append, or a broadcast call with its
room filter and exclusion. -/
inductive Eff where
  | sendSelf (p : Payload)
  | close
  | appendLog (room : String) (p : Payload)
  | broadcastEff (p : Payload) (room : Option String) (exclude : Option String)
  deriving DecidableEq, Repr

/-- Embedding of Python `str.strip()`: drop whitespace from both ends
(written on the character list so that it evaluates in the kernel). -/
def pyStrip (s : String) : String :=
  String.mk (((s.data.dropWhile Char.isWhitespace).reverse.dropWhile
    Char.isWhitespace).reverse)

/-- Dict lookup: `d.get(k)` / `d[k]` on a Python dict modelled as an
association list. -/
def dget {α : Type} (d : List (String × α)) (k : String) : Option α :=
  match d with
  | [] => none
  | (k0, v0) :: rest => if k0 = k then some v0 else dget rest k

/-- Dict update `d[k] = v`: replaces the value in place if the key exists,
otherwise appends the new entry (Python dicts keep insertion order). -/
def dset {α : Type} (d : List (String × α)) (k : String) (v : α) :
    List (String × α) :=
  match d with
  | [] => [(k, v)]
  | (k0, v0) :: rest => if k0 = k then (k0, v) :: rest else (k0, v0) :: dset rest k v

/-- Dict removal `d.pop(k, None)`: drops the entry with the key (an
association list built by `dset` holds at most one). -/
def dpop {α : Type} (d : List (String × α)) (k : String) : List (String × α) :=
  match d with
  | [] => []
  | (k0, v0) :: rest => if k0 = k then dpop rest k else (k0, v0) :: dpop rest k

/-- Python `set.add`: no-op when the element is already present. -/
def sadd (l : List String) (u : String) : List String :=
  if u ∈ l then l else l ++ [u]

/-- Python `set.discard`: removes the element, no-op when absent. -/
def sdiscard (l : List String) (u : String) : List String :=
  l.filter (fun v => v ≠ u)

/-- Lexicographic order on code points, as Python compares strings. -/
def charListLt : List Char → List Char → Bool
  | [], [] => false
  | [], _ :: _ => true
  | _ :: _, [] => false
  | a :: as, b :: bs =>
    if a.toNat < b.toNat then true
    else if b.toNat < a.toNat then false
    else charListLt as bs

/-- Insert into a sorted list of strings (before the first element that is
not smaller). -/
def insertSorted (x : String) : List String → List String
  | [] => [x]
  | y :: rest =>
    if charListLt y.data x.data then y :: insertSorted x rest else x :: y :: rest

/-- Embedding of Python `sorted(...)` on a collection of strings. -/
def sortStr : List String → List String
  | [] => []
  | x :: rest => insertSorted x (sortStr rest)

/-- MAX_HISTORY constant of server.py. -/
def MAX_HISTORY : Nat := 50

/-- Cache part of append_history: `cache.append(payload)` followed by
`if len(cache) > MAX_HISTORY: cache.pop(0)`. -/
def appendCache {α : Type} (cache : List α) (p : α) : List α :=
  let c := cache ++ [p]
  if MAX_HISTORY < c.length then c.drop 1 else c

/-- Cache contents after a sequence of appends starting from an empty
per-room cache (a freshly created room with no durable log). -/
def appendN {α : Type} (records : List α) : List α :=
  records.foldl appendCache []

/-- One line of a room's durable log, as seen by load_history after
`ln.strip()`: blank, a well-formed serialized record, or a line on which
`json.loads` raises. -/
inductive LogLine where
  | blank
  | wellFormed (r : Payload)
  | malformed
  deriving DecidableEq, Repr

/-- The record carried by a well-formed log line. -/
def LogLine.record? : LogLine → Option Payload
  | LogLine.wellFormed r => some r
  | _ => none

/-- Whether `json.loads` raises on this line. -/
def LogLine.isMalformed : LogLine → Bool
  | LogLine.malformed => true
  | _ => false

/-- The parsing loop of load_history: skips blank lines, collects parsed
records in order, and aborts (the raised exception) on the first malformed
line. -/
def parseLines : List LogLine → Option (List Payload)
  | [] => some []
  | LogLine.blank :: rest => parseLines rest
  | LogLine.wellFormed r :: rest => (parseLines rest).map (fun out => r :: out)
  | LogLine.malformed :: _ => none

/-- load_history of server.py.  `file` is the log content, `none` when the
file is absent (the `p.exists()` check) or unreadable (the `open` failure
caught by `except Exception`).  The slice `readlines()[-max_items:]` keeps
the last `max_items` lines; a parse failure anywhere is caught by the same
`except Exception: return []`. -/
def load_history (file : Option (List LogLine)) (maxItems : Nat) : List Payload :=
  match file with
  | none => []
  | some lines =>
    match parseLines (lines.drop (lines.length - maxItems)) with
    | some out => out
    | none => []

/-- Room-name sanitization of room_log_path: keep alphanumerics, `-` and
`_`, strip, fall back to "general" when empty. -/
def sanitize (room : String) : String :=
  let s := String.mk (room.data.filter (fun c => c.isAlphanum || c = '-' || c = '_'))
  let t := pyStrip s
  if t = "" then "general" else t

/-- The characters of the `history_` filename pattern. -/
def histPat : List Char := "history_".data

/-- Stem (filename without the ".jsonl" suffix) of the durable log file
room_log_path builds for a room. -/
def roomFileStem (room : String) : String :=
  "history_" ++ sanitize room

/-- Whether the list starts with the 8 characters of `history_`. -/
def startsWithHist (l : List Char) : Bool :=
  decide (l.take 8 = histPat)

/-- Whether `history_` occurs anywhere in the list. -/
def hasHist : List Char → Bool
  | [] => false
  | c :: rest => startsWithHist (c :: rest) || hasHist rest

/-- Fuelled embedding of Python `str.replace("history_", "")`: removes
non-overlapping occurrences left to right.  The fuel bounds the number of
steps; `replaceHist` supplies fuel = length, which always suffices. -/
def replaceHistFuel : Nat → List Char → List Char
  | _, [] => []
  | 0, l => l
  | fuel + 1, c :: rest =>
    if startsWithHist (c :: rest) then replaceHistFuel fuel ((c :: rest).drop 8)
    else c :: replaceHistFuel fuel rest

/-- `stem.replace("history_", "")` of list_rooms, on a file stem. -/
def derivedRoomName (stem : String) : String :=
  String.mk (replaceHistFuel stem.data.length stem.data)

/-- list_rooms of server.py: the sorted union of the in-memory room names
and the names derived from the log file stems on disk (empty derived names
are skipped). -/
def list_rooms (memRooms fileStems : List String) : List String :=
  sortStr ((memRooms ++ fileStems.filterMap (fun st =>
    let n := derivedRoomName st
    if n = "" then none else some n)).dedup)

/-- Python truthiness of an optional string (`if room`, `if exclude`). -/
def pyTruthy (o : Option String) : Bool :=
  match o with
  | none => false
  | some s => decide (s ≠ "")

/-- The skip conditions of the broadcast loop body: `True` when the loop
attempts a send to `u` (neither `exclude and u == exclude` nor
`room and user_rooms.get(u) != room` fires). -/
def bcastKeep (userRooms : List (String × String)) (room exclude : Option String)
    (u : String) : Bool :=
  if pyTruthy exclude = true ∧ u = exclude.getD "" then false
  else if pyTruthy room = true ∧ dget userRooms u ≠ some (room.getD "") then false
  else true

/-- The usernames to which broadcast attempts a send, in iteration order
over `list(clients.items())`. -/
def broadcastRecipients (clients : List String) (userRooms : List (String × String))
    (room exclude : Option String) : List String :=
  clients.filter (bcastKeep userRooms room exclude)

/-- One send_json call, which may raise (channel closed, ...); `fail` says
which recipients' channels fail. -/
def sendResult (fail : String → Bool) (u : String) : Except String Unit :=
  if fail u = true then Except.error "send failed" else Except.ok ()

/-- The broadcast loop in the exception monad: every send is wrapped in
`try ... except Exception: pass`, so a failed send is recorded and the loop
continues.  Returns the attempted recipients with their delivery outcome. -/
def broadcastE (fail : String → Bool) (userRooms : List (String × String))
    (room exclude : Option String) : List String → Except String (List (String × Bool))
  | [] => Except.ok []
  | u :: rest =>
    if bcastKeep userRooms room exclude u = true then
      match sendResult fail u with
      | Except.ok _ =>
        match broadcastE fail userRooms room exclude rest with
        | Except.ok res => Except.ok ((u, true) :: res)
        | Except.error e => Except.error e
      | Except.error _ =>
        match broadcastE fail userRooms room exclude rest with
        | Except.ok res => Except.ok ((u, false) :: res)
        | Except.error e => Except.error e
    else broadcastE fail userRooms room exclude rest

/-- The four module-level dicts of server.py.  `clients` keeps only the
usernames (the socket handles carry no state the claims mention). -/
structure SState where
  clients : List String
  userRooms : List (String × String)
  rooms : List (String × List String)
  cache : List (String × List Payload)
  deriving DecidableEq, Repr

/-- Module initialization: empty dicts except `rooms = {"general": set()}`. -/
def initState : SState :=
  { clients := [], userRooms := [], rooms := [("general", [])], cache := [] }

/-- online_users of server.py. -/
def onlineUsers (s : SState) : List String :=
  sortStr s.clients

/-- room_users of server.py: `sorted(list(rooms.get(room, set())))`. -/
def roomUsersOf (s : SState) (room : String) : List String :=
  sortStr ((dget s.rooms room).getD [])

/-- First half of ensure_room: `if room not in rooms: rooms[room] = set()`. -/
def ensureRoomRooms (st : SState) (room : String) : SState :=
  if (dget st.rooms room).isSome then st
  else { st with rooms := dset st.rooms room [] }

/-- Second half of ensure_room:
`if room not in history_cache: history_cache[room] = load_history(room, MAX_HISTORY)`.
`loadH room` is the value load_history returns for the room's log file at
this moment. -/
def ensureRoomCache (loadH : String → List Payload) (st : SState) (room : String) :
    SState :=
  if (dget st.cache room).isSome then st
  else { st with cache := dset st.cache room (loadH room) }

/-- ensure_room of server.py. -/
def ensureRoom (loadH : String → List Payload) (st : SState) (room : String) : SState :=
  ensureRoomCache loadH (ensureRoomRooms st room) room

/-- The state mutations of a successful login (ws_endpoint lines 156-161
plus the second ensure_room inside send_history): register the client,
ensure "general", add membership, assign the room. -/
def loginState (loadH : String → List Payload) (st : SState) (req : String) : SState :=
  let st1 : SState := { st with clients := st.clients ++ [req] }
  let st2 := ensureRoom loadH st1 "general"
  let st3 : SState := { st2 with
    rooms := dset st2.rooms "general" (sadd ((dget st2.rooms "general").getD []) req) }
  let st4 : SState := { st3 with userRooms := dset st3.userRooms req "general" }
  ensureRoom loadH st4 "general"

/-- The login handshake of ws_endpoint (first received event): the three
failure replies, or registration, membership in "general", login_ok,
history replay of "general" and the user_joined broadcast. -/
def handshake (loadH : String → List Payload) (st : SState) (ev : InEvent) :
    SState × List Eff :=
  match ev with
  | InEvent.login uname =>
    let requested := pyStrip (uname.getD "")
    if requested = "" then
      (st, [Eff.sendSelf (Payload.error "Username vacío."), Eff.close])
    else if requested ∈ st.clients then
      (st, [Eff.sendSelf (Payload.error "Ese username ya está en uso."), Eff.close])
    else
      let st5 := loginState loadH st requested
      (st5,
        Eff.sendSelf (Payload.loginOk requested (sortStr (st.clients ++ [requested]))
            "general")
          :: ((dget st5.cache "general").getD []).map Eff.sendSelf
          ++ [Eff.broadcastEff
                (Payload.userJoined requested "general" (roomUsersOf st5 "general"))
                (some "general") (some requested)])
  | _ =>
    (st, [Eff.sendSelf (Payload.error "Primero debes iniciar sesión (type=login)."),
          Eff.close])

/-- The membership move inside join_room when the target differs from the
current room: `rooms.setdefault(old_room, set()).discard(username)`,
`rooms[new_room].add(username)`, `user_rooms[username] = new_room`. -/
def moveMembership (st : SState) (username oldRoom newRoom : String) : SState :=
  let roomsA := dset st.rooms oldRoom
    (sdiscard ((dget st.rooms oldRoom).getD []) username)
  let roomsB := dset roomsA newRoom
    (sadd ((dget roomsA newRoom).getD []) username)
  { st with rooms := roomsB, userRooms := dset st.userRooms username newRoom }

/-- One iteration of the ws_endpoint message loop for the logged-in
`username`.  `fileStems` are the stems of the `history_*.jsonl` files the
`rooms` listing would glob right now; `ts` is `int(time.time())`. -/
def handleEvent (loadH : String → List Payload) (fileStems : List String)
    (st : SState) (username : String) (ev : InEvent) (ts : Nat) : SState × List Eff :=
  let currentRoom := (dget st.userRooms username).getD "general"
  match ev with
  | InEvent.message txt =>
    let text := pyStrip (txt.getD "")
    if text = "" then (st, [])
    else
      let payload := Payload.message username text ts currentRoom
      let st1 := ensureRoom loadH st currentRoom
      let st2 : SState := { st1 with
        cache := dset st1.cache currentRoom
          (appendCache ((dget st1.cache currentRoom).getD []) payload) }
      (st2, [Eff.appendLog currentRoom payload,
             Eff.broadcastEff payload (some currentRoom) none])
  | InEvent.roomsQuery =>
    (st, [Eff.sendSelf (Payload.roomsList
            (list_rooms (st.rooms.map (fun p => p.1)) fileStems))])
  | InEvent.roomWho =>
    (st, [Eff.sendSelf (Payload.roomUsers currentRoom (roomUsersOf st currentRoom))])
  | InEvent.joinRoom rm =>
    let newRoom := pyStrip (rm.getD "")
    if newRoom = "" then
      (st, [Eff.sendSelf (Payload.error "Debes indicar una sala válida.")])
    else
      let st1 := ensureRoom loadH st newRoom
      let oldRoom := (dget st1.userRooms username).getD "general"
      let st2 : SState :=
        if oldRoom ≠ newRoom then moveMembership st1 username oldRoom newRoom
        else st1
      let st3 := ensureRoom loadH st2 newRoom
      (st3,
        Eff.sendSelf (Payload.info ("Te uniste a la sala \x27" ++ newRoom ++ "\x27") newRoom)
          :: ((dget st3.cache newRoom).getD []).map Eff.sendSelf
          ++ [Eff.broadcastEff
                (Payload.userLeftRoom username oldRoom (roomUsersOf st3 oldRoom))
                (some oldRoom) none,
              Eff.broadcastEff
                (Payload.userJoinedRoom username newRoom (roomUsersOf st3 newRoom))
                (some newRoom) (some username)])
  | InEvent.login _ =>
    (st, [Eff.sendSelf (Payload.error "Tipo no soportado: login")])
  | InEvent.other t =>
    (st, [Eff.sendSelf (Payload.error ("Tipo no soportado: " ++ t))])

/-- The state mutations of the `finally` block of ws_endpoint: pop the
session, pop the room assignment, discard membership from the old room (a
plain `rooms.get(room, set())`, no insertion). -/
def disconnectState (st : SState) (u : String) : SState :=
  let st1 : SState := { st with clients := st.clients.filter (fun v => v ≠ u) }
  let room := (dget st1.userRooms u).getD "general"
  let st2 : SState := { st1 with userRooms := dpop st1.userRooms u }
  match dget st2.rooms room with
  | some ms => { st2 with rooms := dset st2.rooms room (sdiscard ms u) }
  | none => st2

/-- The `finally` block of ws_endpoint: with a registered username, apply
the cleanup mutations and broadcast user_left to the old room. -/
def disconnectCleanup (st : SState) (username : Option String) : SState × List Eff :=
  match username with
  | none => (st, [])
  | some u =>
    let room := (dget st.userRooms u).getD "general"
    let st3 := disconnectState st u
    (st3, [Eff.broadcastEff (Payload.userLeft u room (roomUsersOf st3 room))
             (some room) none])

/-- States the running server can be in: the initial module state, and the
closure under the atomic shared-state mutations of any connection task —
a login handshake, one message-loop iteration of a registered user, and
the disconnect cleanup.  (The cooperative scheduler switches tasks only at
awaits, which all fall outside these mutation blocks.) -/
inductive Reachable : SState → Prop where
  | init : Reachable initState
  | hs {s : SState} (h : Reachable s) (loadH : String → List Payload)
      (ev : InEvent) : Reachable (handshake loadH s ev).1
  | step {s : SState} (h : Reachable s) (loadH : String → List Payload)
      (fileStems : List String) (u : String) (ev : InEvent) (ts : Nat)
      (hu : u ∈ s.clients) : Reachable (handleEvent loadH fileStems s u ev ts).1
  | disc {s : SState} (h : Reachable s) (u : String) :
      Reachable (disconnectCleanup s (some u)).1

/-- The registry consistency invariant: clients and user_rooms have the
same domain, each assigned room is a nonempty name owning a member set that
contains the user, and each member of any room set is a client assigned to
exactly that room. -/
def Inv (s : SState) : Prop :=
  (∀ u, u ∈ s.clients ↔ ∃ r, dget s.userRooms u = some r) ∧
  (∀ u r, dget s.userRooms u = some r →
    r ≠ "" ∧ ∃ ms, dget s.rooms r = some ms ∧ u ∈ ms) ∧
  (∀ r ms u, dget s.rooms r = some ms → u ∈ ms → dget s.userRooms u = some r)

/-- The property claimed for active sessions: the assigned room is a key of
`rooms` and its member set contains the user. -/
def ActiveConsistent (s : SState) : Prop :=
  ∀ u, u ∈ s.clients →
    ∃ r ms, dget s.userRooms u = some r ∧ dget s.rooms r = some ms ∧ u ∈ ms

/-- A concrete message record used by concrete evaluations. -/
def samplePayload : Payload :=
  Payload.message "alice" "hi" 0 "general"

/-- A concrete registry state with one active session. -/
def demoState : SState :=
  { clients := ["alice"],
    userRooms := [("alice", "general")],
    rooms := [("general", ["alice"])],
    cache := [] }

/-- The module state after one connection logs in as "alice" (no durable
logs on disk). -/
def loggedIn : SState :=
  (handshake (fun _ => []) initState (InEvent.login (some "alice"))).1

/-- After "alice", a second connection logs in as "bob". -/
def loggedIn2 : SState :=
  (handshake (fun _ => []) loggedIn (InEvent.login (some "bob"))).1

/-- Dict update then lookup. -/
theorem dget_dset {α : Type} (d : List (String × α)) (k k' : String) (v : α) :
    dget (dset d k v) k' = if k = k' then some v else dget d k' := by
  induction d with
  | nil => by_cases h : k = k' <;> simp [dget, dset, h]
  | cons p rest ih =>
    obtain ⟨k0, v0⟩ := p
    by_cases h0 : k0 = k
    · subst h0
      by_cases h1 : k0 = k'
      · subst h1; simp [dget, dset]
      · simp [dget, dset, h1]
    · by_cases h1 : k0 = k'
      · subst h1
        have hk : ¬ k = k0 := fun h => h0 h.symm
        simp [dget, dset, h0, hk]
      · simp [dget, dset, h0, h1, ih]

/-- Dict removal then lookup. -/
theorem dget_dpop {α : Type} (d : List (String × α)) (k k' : String) :
    dget (dpop d k) k' = if k' = k then none else dget d k' := by
  induction d with
  | nil => simp [dget, dpop]
  | cons p rest ih =>
    obtain ⟨k0, v0⟩ := p
    by_cases h0 : k0 = k
    · subst h0
      by_cases h1 : k0 = k'
      · subst h1; simp [dget, dpop, ih]
      · have hk : ¬ k' = k0 := fun h => h1 h.symm
        simp [dget, dpop, ih, hk, h1]
    · by_cases h1 : k0 = k'
      · subst h1
        have hk : ¬ k0 = k := h0
        simp [dget, dpop, h0, hk]
      · simp [dget, dpop, h0, h1, ih]

/-- Membership in a set after `add`. -/
theorem mem_sadd {l : List String} {u v : String} :
    v ∈ sadd l u ↔ v ∈ l ∨ v = u := by
  unfold sadd
  by_cases h : u ∈ l
  · simp only [h, if_true]
    constructor
    · exact Or.inl
    · rintro (hv | rfl)
      · exact hv
      · exact h
  · simp [h]

/-- Membership in a set after `discard`. -/
theorem mem_sdiscard {l : List String} {u v : String} :
    v ∈ sdiscard l u ↔ v ∈ l ∧ v ≠ u := by
  simp [sdiscard, List.mem_filter]

/-- Insertion keeps exactly the old elements plus the new one. -/
theorem mem_insertSorted {x a : String} {l : List String} :
    a ∈ insertSorted x l ↔ a = x ∨ a ∈ l := by
  induction l with
  | nil => simp [insertSorted]
  | cons y rest ih =>
    unfold insertSorted
    by_cases h : charListLt y.data x.data
    · simp only [h, if_true, List.mem_cons, ih]
      tauto
    · simp [h]

/-- Sorting keeps exactly the same elements. -/
theorem mem_sortStr {a : String} {l : List String} :
    a ∈ sortStr l ↔ a ∈ l := by
  induction l with
  | nil => simp [sortStr]
  | cons x rest ih => simp [sortStr, mem_insertSorted, ih]

/-- The cache half of ensure_room only touches the cache. -/
theorem ensureRoomCache_clients (loadH : String → List Payload) (s : SState)
    (room : String) : (ensureRoomCache loadH s room).clients = s.clients := by
  unfold ensureRoomCache; split <;> rfl

/-- The cache half of ensure_room keeps the room assignments. -/
theorem ensureRoomCache_userRooms (loadH : String → List Payload) (s : SState)
    (room : String) : (ensureRoomCache loadH s room).userRooms = s.userRooms := by
  unfold ensureRoomCache; split <;> rfl

/-- The cache half of ensure_room keeps the member sets. -/
theorem ensureRoomCache_rooms (loadH : String → List Payload) (s : SState)
    (room : String) : (ensureRoomCache loadH s room).rooms = s.rooms := by
  unfold ensureRoomCache; split <;> rfl

/-- The rooms half of ensure_room keeps the session registry. -/
theorem ensureRoomRooms_clients (s : SState) (room : String) :
    (ensureRoomRooms s room).clients = s.clients := by
  unfold ensureRoomRooms; split <;> rfl

/-- The rooms half of ensure_room keeps the room assignments. -/
theorem ensureRoomRooms_userRooms (s : SState) (room : String) :
    (ensureRoomRooms s room).userRooms = s.userRooms := by
  unfold ensureRoomRooms; split <;> rfl

/-- The rooms half of ensure_room keeps the cache. -/
theorem ensureRoomRooms_cache (s : SState) (room : String) :
    (ensureRoomRooms s room).cache = s.cache := by
  unfold ensureRoomRooms; split <;> rfl

/-- ensure_room does not touch the session registry. -/
theorem ensureRoom_clients (loadH : String → List Payload) (s : SState) (room : String) :
    (ensureRoom loadH s room).clients = s.clients := by
  unfold ensureRoom
  rw [ensureRoomCache_clients, ensureRoomRooms_clients]

/-- ensure_room does not touch the room assignments. -/
theorem ensureRoom_userRooms (loadH : String → List Payload) (s : SState) (room : String) :
    (ensureRoom loadH s room).userRooms = s.userRooms := by
  unfold ensureRoom
  rw [ensureRoomCache_userRooms, ensureRoomRooms_userRooms]

/-- ensure_room on a room already in the registry leaves `rooms` unchanged. -/
theorem ensureRoom_rooms_of_isSome {s : SState} {room : String}
    (loadH : String → List Payload) (h : (dget s.rooms room).isSome) :
    (ensureRoom loadH s room).rooms = s.rooms := by
  unfold ensureRoom
  rw [ensureRoomCache_rooms]
  unfold ensureRoomRooms
  simp [h]

/-- Member sets after ensure_room: the ensured room gets its old set (or a
fresh empty one), every other room keeps its set. -/
theorem ensureRoom_rooms_dget (loadH : String → List Payload) (s : SState)
    (room r : String) :
    dget (ensureRoom loadH s room).rooms r =
      if r = room then some ((dget s.rooms room).getD []) else dget s.rooms r := by
  unfold ensureRoom
  rw [ensureRoomCache_rooms]
  unfold ensureRoomRooms
  rcases hr : dget s.rooms room with _ | ms
  · simp only [hr, Option.isSome_none, Bool.false_eq_true, if_false]
    by_cases h : r = room
    · subst h; simp [dget_dset]
    · have hk : ¬ room = r := fun h1 => h h1.symm
      simp [dget_dset, h, hk]
  · simp only [hr, Option.isSome_some, if_true]
    by_cases h : r = room
    · subst h; simp [hr]
    · simp [h, hr]

/-- Session list after a successful login's state mutations. -/
theorem loginState_clients (loadH : String → List Payload) (st : SState) (req : String) :
    (loginState loadH st req).clients = st.clients ++ [req] := by
  simp [loginState, ensureRoom_clients]

/-- Room assignments after a successful login's state mutations. -/
theorem loginState_userRooms_dget (loadH : String → List Payload) (st : SState)
    (req v : String) :
    dget (loginState loadH st req).userRooms v =
      if req = v then some "general" else dget st.userRooms v := by
  simp [loginState, ensureRoom_userRooms, dget_dset]

/-- Member sets after a successful login's state mutations. -/
theorem loginState_rooms_dget (loadH : String → List Payload) (st : SState)
    (req r : String) :
    dget (loginState loadH st req).rooms r =
      if r = "general" then some (sadd ((dget st.rooms "general").getD []) req)
      else dget st.rooms r := by
  simp only [loginState, ensureRoom_rooms_dget, dget_dset]
  by_cases h : r = "general"
  · subst h; simp
  · have hk : ¬ "general" = r := fun h1 => h h1.symm
    simp [h, hk]

/-- The membership move does not touch the session registry. -/
theorem moveMembership_clients (st : SState) (u oldRoom newRoom : String) :
    (moveMembership st u oldRoom newRoom).clients = st.clients := rfl

/-- The membership move does not touch the history cache. -/
theorem moveMembership_cache (st : SState) (u oldRoom newRoom : String) :
    (moveMembership st u oldRoom newRoom).cache = st.cache := rfl

/-- Room assignments after the membership move. -/
theorem moveMembership_userRooms_dget (st : SState) (u oldRoom newRoom v : String) :
    dget (moveMembership st u oldRoom newRoom).userRooms v =
      if u = v then some newRoom else dget st.userRooms v := by
  simp [moveMembership, dget_dset]

/-- Member sets after the membership move (for distinct rooms): the new
room gains the user, the old room loses it, all others are untouched. -/
theorem moveMembership_rooms_dget (st : SState) (u oldRoom newRoom r : String)
    (hne : oldRoom ≠ newRoom) :
    dget (moveMembership st u oldRoom newRoom).rooms r =
      if r = newRoom then some (sadd ((dget st.rooms newRoom).getD []) u)
      else if r = oldRoom then some (sdiscard ((dget st.rooms oldRoom).getD []) u)
      else dget st.rooms r := by
  have hno : ¬ oldRoom = newRoom := hne
  simp only [moveMembership, dget_dset, hno, if_false]
  by_cases h1 : r = newRoom
  · subst h1
    have h2 : ¬ oldRoom = r := hno
    simp [h2]
  · have h1' : ¬ newRoom = r := fun h => h1 h.symm
    by_cases h2 : r = oldRoom
    · subst h2
      simp [h1', h1]
    · have h2' : ¬ oldRoom = r := fun h => h2 h.symm
      simp [h1', h1, h2, h2']

/-- Session list after disconnect cleanup. -/
theorem disconnectState_clients (st : SState) (u : String) :
    (disconnectState st u).clients = st.clients.filter (fun v => v ≠ u) := by
  rcases hg : dget st.rooms ((dget st.userRooms u).getD "general") with _ | ms <;>
    simp [disconnectState, hg]

/-- The disconnect cleanup keeps the history cache. -/
theorem disconnectState_cache (st : SState) (u : String) :
    (disconnectState st u).cache = st.cache := by
  rcases hg : dget st.rooms ((dget st.userRooms u).getD "general") with _ | ms <;>
    simp [disconnectState, hg]

/-- Room assignments after disconnect cleanup. -/
theorem disconnectState_userRooms_dget (st : SState) (u v : String) :
    dget (disconnectState st u).userRooms v =
      if v = u then none else dget st.userRooms v := by
  rcases hg : dget st.rooms ((dget st.userRooms u).getD "general") with _ | ms <;>
    simp [disconnectState, hg, dget_dpop]

/-- Member sets after disconnect cleanup: the disconnecting user's room
(defaulting to "general") loses the user when present, everything else is
untouched. -/
theorem disconnectState_rooms_dget (st : SState) (u r : String) :
    dget (disconnectState st u).rooms r =
      if r = (dget st.userRooms u).getD "general"
      then (dget st.rooms r).map (fun ms => sdiscard ms u)
      else dget st.rooms r := by
  rcases hg : dget st.rooms ((dget st.userRooms u).getD "general") with _ | ms
  · simp only [disconnectState, hg]
    by_cases h : r = (dget st.userRooms u).getD "general"
    · rw [if_pos h, h, hg]
      rfl
    · rw [if_neg h]
  · simp only [disconnectState, hg]
    rw [dget_dset]
    by_cases h : r = (dget st.userRooms u).getD "general"
    · have h' : (dget st.userRooms u).getD "general" = r := h.symm
      rw [if_pos h', if_pos h, h, hg]
      rfl
    · have h' : ¬ (dget st.userRooms u).getD "general" = r := fun h1 => h h1.symm
      rw [if_neg h', if_neg h]

/-- ensure_room preserves the registry invariant. -/
theorem inv_ensureRoom {s : SState} (loadH : String → List Payload) (room : String)
    (h : Inv s) : Inv (ensureRoom loadH s room) := by
  obtain ⟨h1, h2, h3⟩ := h
  refine ⟨?_, ?_, ?_⟩
  · intro u
    rw [ensureRoom_clients, ensureRoom_userRooms]
    exact h1 u
  · intro u r hur
    rw [ensureRoom_userRooms] at hur
    obtain ⟨hne, ms, hms, hmem⟩ := h2 u r hur
    refine ⟨hne, ?_⟩
    rw [ensureRoom_rooms_dget]
    by_cases hr : r = room
    · rw [if_pos hr, ← hr, hms]
      exact ⟨ms, rfl, hmem⟩
    · rw [if_neg hr]
      exact ⟨ms, hms, hmem⟩
  · intro r ms u hms hmem
    rw [ensureRoom_userRooms]
    rw [ensureRoom_rooms_dget] at hms
    by_cases hr : r = room
    · rw [if_pos hr, ← hr] at hms
      rcases hg : dget s.rooms r with _ | ms0
      · rw [hg] at hms
        simp at hms
        subst hms
        cases hmem
      · rw [hg] at hms
        simp at hms
        subst hms
        exact h3 r ms0 u hg hmem
    · rw [if_neg hr] at hms
      exact h3 r ms u hms hmem

/-- The successful login mutations preserve the registry invariant. -/
theorem inv_loginState {s : SState} (loadH : String → List Payload) (req : String)
    (h : Inv s) (hreq : req ≠ "") (hnot : req ∉ s.clients) :
    Inv (loginState loadH s req) := by
  obtain ⟨h1, h2, h3⟩ := h
  have hreqUR : dget s.userRooms req = none := by
    rcases hg : dget s.userRooms req with _ | r
    · rfl
    · exact absurd ((h1 req).2 ⟨r, hg⟩) hnot
  refine ⟨?_, ?_, ?_⟩
  · intro u
    rw [loginState_clients, loginState_userRooms_dget]
    by_cases hu : req = u
    · subst hu
      simp
    · have hu' : ¬ u = req := fun hh => hu hh.symm
      rw [if_neg hu]
      simp only [List.mem_append, List.mem_singleton, hu', or_false]
      exact h1 u
  · intro u r hur
    rw [loginState_userRooms_dget] at hur
    by_cases hu : req = u
    · rw [if_pos hu] at hur
      have hr : r = "general" := by
        injection hur with hh
        exact hh.symm
      subst hr
      refine ⟨by decide, ?_⟩
      rw [loginState_rooms_dget, if_pos rfl]
      refine ⟨_, rfl, ?_⟩
      rw [mem_sadd]
      exact Or.inr hu.symm
    · rw [if_neg hu] at hur
      obtain ⟨hne, ms, hms, hmem⟩ := h2 u r hur
      refine ⟨hne, ?_⟩
      rw [loginState_rooms_dget]
      by_cases hr : r = "general"
      · rw [if_pos hr, ← hr, hms]
        refine ⟨_, rfl, ?_⟩
        rw [mem_sadd]
        exact Or.inl hmem
      · rw [if_neg hr]
        exact ⟨ms, hms, hmem⟩
  · intro r ms u hms hmem
    rw [loginState_userRooms_dget]
    rw [loginState_rooms_dget] at hms
    by_cases hr : r = "general"
    · rw [if_pos hr] at hms
      injection hms with hh
      subst hh
      rw [mem_sadd] at hmem
      rcases hmem with hmem | hmem
      · rcases hg : dget s.rooms "general" with _ | ms0
        · rw [hg] at hmem
          cases hmem
        · rw [hg] at hmem
          have := h3 "general" ms0 u hg hmem
          have hu : ¬ req = u := by
            intro hh
            rw [hh] at hreqUR
            rw [hreqUR] at this
            cases this
          rw [if_neg hu, this, hr]
      · subst hmem
        rw [if_pos rfl, hr]
    · rw [if_neg hr] at hms
      have := h3 r ms u hms hmem
      have hu : ¬ req = u := by
        intro hh
        rw [hh] at hreqUR
        rw [hreqUR] at this
        cases this
      rw [if_neg hu, this]

/-- The membership move of join_room preserves the registry invariant. -/
theorem inv_moveMembership {s : SState} {u oldRoom newRoom : String}
    (h : Inv s) (hur : dget s.userRooms u = some oldRoom)
    (msN : List String) (hmsN : dget s.rooms newRoom = some msN)
    (hne : oldRoom ≠ newRoom) (hnewne : newRoom ≠ "") :
    Inv (moveMembership s u oldRoom newRoom) := by
  obtain ⟨h1, h2, h3⟩ := h
  refine ⟨?_, ?_, ?_⟩
  · intro v
    rw [moveMembership_clients, moveMembership_userRooms_dget]
    by_cases hv : u = v
    · subst hv
      simp only [if_pos rfl]
      constructor
      · intro _
        exact ⟨newRoom, rfl⟩
      · intro _
        exact (h1 u).2 ⟨oldRoom, hur⟩
    · rw [if_neg hv]
      exact h1 v
  · intro v r hvr
    rw [moveMembership_userRooms_dget] at hvr
    by_cases hv : u = v
    · rw [if_pos hv] at hvr
      have hr : r = newRoom := by
        injection hvr with hh
        exact hh.symm
      subst hr
      refine ⟨hnewne, ?_⟩
      rw [moveMembership_rooms_dget _ _ _ _ _ hne, if_pos rfl]
      refine ⟨_, rfl, ?_⟩
      rw [mem_sadd]
      exact Or.inr hv.symm
    · rw [if_neg hv] at hvr
      obtain ⟨hner, ms, hms, hmem⟩ := h2 v r hvr
      refine ⟨hner, ?_⟩
      rw [moveMembership_rooms_dget _ _ _ _ _ hne]
      by_cases hrn : r = newRoom
      · rw [if_pos hrn]
        rw [hrn, hmsN] at hms
        injection hms with hh
        subst hh
        refine ⟨_, rfl, ?_⟩
        rw [hmsN]
        rw [mem_sadd]
        exact Or.inl hmem
      · rw [if_neg hrn]
        by_cases hro : r = oldRoom
        · rw [if_pos hro, ← hro, hms]
          refine ⟨_, rfl, ?_⟩
          rw [mem_sdiscard]
          have hvu : v ≠ u := fun hh => hv hh.symm
          exact ⟨hmem, hvu⟩
        · rw [if_neg hro]
          exact ⟨ms, hms, hmem⟩
  · intro r ms v hms hmem
    rw [moveMembership_userRooms_dget]
    rw [moveMembership_rooms_dget _ _ _ _ _ hne] at hms
    by_cases hrn : r = newRoom
    · rw [if_pos hrn] at hms
      injection hms with hh
      subst hh
      rw [mem_sadd] at hmem
      rcases hmem with hmem | hmem
      · rw [hmsN] at hmem
        simp only [Option.getD_some] at hmem
        have hvr := h3 newRoom msN v hmsN hmem
        have hv : ¬ u = v := by
          intro hh
          rw [← hh] at hvr
          rw [hur] at hvr
          injection hvr with hh2
          exact hne hh2
        rw [if_neg hv, hvr, hrn]
      · subst hmem
        rw [if_pos rfl, hrn]
    · rw [if_neg hrn] at hms
      by_cases hro : r = oldRoom
      · rw [if_pos hro] at hms
        injection hms with hh
        subst hh
        rw [mem_sdiscard] at hmem
        obtain ⟨hmem, hvu⟩ := hmem
        rcases hg : dget s.rooms oldRoom with _ | ms0
        · rw [hg] at hmem
          cases hmem
        · rw [hg] at hmem
          have hvr := h3 oldRoom ms0 v hg hmem
          have hv : ¬ u = v := fun hh => hvu hh.symm
          rw [if_neg hv, hvr, hro]
      · rw [if_neg hro] at hms
        have hvr := h3 r ms v hms hmem
        have hv : ¬ u = v := by
          intro hh
          rw [← hh] at hvr
          rw [hur] at hvr
          injection hvr with hh2
          exact hro hh2.symm
        rw [if_neg hv, hvr]

/-- The disconnect cleanup mutations preserve the registry invariant. -/
theorem inv_disconnectState {s : SState} (u : String) (h : Inv s) :
    Inv (disconnectState s u) := by
  obtain ⟨h1, h2, h3⟩ := h
  refine ⟨?_, ?_, ?_⟩
  · intro v
    rw [disconnectState_clients, disconnectState_userRooms_dget]
    by_cases hv : v = u
    · subst hv
      simp
    · rw [if_neg hv]
      simp only [List.mem_filter, decide_eq_true_eq]
      constructor
      · intro hvc
        exact (h1 v).1 hvc.1
      · intro hex
        exact ⟨(h1 v).2 hex, hv⟩
  · intro v r hvr
    rw [disconnectState_userRooms_dget] at hvr
    by_cases hv : v = u
    · rw [if_pos hv] at hvr
      cases hvr
    · rw [if_neg hv] at hvr
      obtain ⟨hner, ms, hms, hmem⟩ := h2 v r hvr
      refine ⟨hner, ?_⟩
      rw [disconnectState_rooms_dget]
      by_cases hr : r = (dget s.userRooms u).getD "general"
      · rw [if_pos hr, hms]
        refine ⟨_, rfl, ?_⟩
        rw [mem_sdiscard]
        exact ⟨hmem, hv⟩
      · rw [if_neg hr]
        exact ⟨ms, hms, hmem⟩
  · intro r ms v hms hmem
    rw [disconnectState_userRooms_dget]
    rw [disconnectState_rooms_dget] at hms
    by_cases hr : r = (dget s.userRooms u).getD "general"
    · rw [if_pos hr] at hms
      rcases hg : dget s.rooms r with _ | ms0
      · rw [hg] at hms
        cases hms
      · rw [hg] at hms
        injection hms with hh
        subst hh
        rw [mem_sdiscard] at hmem
        obtain ⟨hmem, hvu⟩ := hmem
        rw [if_neg hvu]
        exact h3 r ms0 v hg hmem
    · rw [if_neg hr] at hms
      have hvr := h3 r ms v hms hmem
      have hv : ¬ v = u := by
        intro hh
        rw [hh] at hvr
        rw [hvr] at hr
        exact hr rfl
      rw [if_neg hv]
      exact hvr

/-- The login handshake preserves the registry invariant. -/
theorem inv_handshake {s : SState} (loadH : String → List Payload) (ev : InEvent)
    (h : Inv s) : Inv (handshake loadH s ev).1 := by
  cases ev with
  | login uname =>
    simp only [handshake]
    by_cases he : pyStrip (uname.getD "") = ""
    · rw [if_pos he]
      exact h
    · rw [if_neg he]
      by_cases hin : pyStrip (uname.getD "") ∈ s.clients
      · rw [if_pos hin]
        exact h
      · rw [if_neg hin]
        exact inv_loginState loadH _ h he hin
  | message txt => exact h
  | roomsQuery => exact h
  | roomWho => exact h
  | joinRoom rm => exact h
  | other t => exact h

/-- One message-loop iteration of a registered user preserves the registry
invariant. -/
theorem inv_handleEvent {s : SState} (loadH : String → List Payload)
    (fileStems : List String) (u : String) (ev : InEvent) (ts : Nat)
    (h : Inv s) (hu : u ∈ s.clients) :
    Inv (handleEvent loadH fileStems s u ev ts).1 := by
  cases ev with
  | message txt =>
    simp only [handleEvent]
    by_cases ht : pyStrip (txt.getD "") = ""
    · rw [if_pos ht]
      exact h
    · rw [if_neg ht]
      exact inv_ensureRoom loadH _ h
  | roomsQuery => exact h
  | roomWho => exact h
  | joinRoom rm =>
    simp only [handleEvent]
    by_cases hr : pyStrip (rm.getD "") = ""
    · rw [if_pos hr]
      exact h
    · rw [if_neg hr]
      have h1 := inv_ensureRoom loadH (pyStrip (rm.getD "")) h
      set st1 := ensureRoom loadH s (pyStrip (rm.getD "")) with hst1
      by_cases hmove :
          (dget st1.userRooms u).getD "general" ≠ pyStrip (rm.getD "")
      · rw [if_pos hmove]
        apply inv_ensureRoom
        obtain ⟨r0, hr0⟩ := (h.1 u).1 hu
        have hur1 : dget st1.userRooms u = some r0 := by
          rw [hst1, ensureRoom_userRooms]
          exact hr0
        have hgd : (dget st1.userRooms u).getD "general" = r0 := by
          rw [hur1]
          rfl
        refine inv_moveMembership h1 ?_ ((dget s.rooms (pyStrip (rm.getD ""))).getD [])
          ?_ hmove hr
        · rw [hur1]
          rfl
        · rw [hst1, ensureRoom_rooms_dget, if_pos rfl]
      · rw [if_neg hmove]
        exact inv_ensureRoom loadH _ h1
  | login un => exact h
  | other t => exact h

/-- Disconnect cleanup preserves the registry invariant. -/
theorem inv_disconnect {s : SState} (uo : Option String) (h : Inv s) :
    Inv (disconnectCleanup s uo).1 := by
  cases uo with
  | none => exact h
  | some u => exact inv_disconnectState u h

/-- The initial module state satisfies the registry invariant. -/
theorem inv_init : Inv initState := by
  refine ⟨?_, ?_, ?_⟩
  · intro u
    simp [initState, dget]
  · intro u r hur
    simp [initState, dget] at hur
  · intro r ms u hms hmem
    simp only [initState, dget] at hms
    by_cases hr : "general" = r
    · rw [if_pos hr] at hms
      injection hms with hh
      subst hh
      cases hmem
    · rw [if_neg hr] at hms
      cases hms

/-- Every reachable server state satisfies the registry invariant. -/
theorem reachable_inv {s : SState} (h : Reachable s) : Inv s := by
  induction h with
  | init => exact inv_init
  | hs h loadH ev ih => exact inv_handshake loadH ev ih
  | step h loadH fileStems u ev ts hu ih => exact inv_handleEvent loadH fileStems u ev ts ih hu
  | disc h u ih => exact inv_disconnect (some u) ih

/-- One append on a cache within the bound keeps the tail-of-51 shape. -/
theorem appendCache_eq {α : Type} (cache : List α) (p : α) (h : cache.length ≤ 50) :
    appendCache cache p = (cache ++ [p]).drop (cache.length + 1 - 50) := by
  unfold appendCache MAX_HISTORY
  simp only [List.length_append, List.length_singleton]
  by_cases hc : 50 < cache.length + 1
  · rw [if_pos hc]
    have h1 : cache.length + 1 - 50 = 1 := by omega
    rw [h1]
  · rw [if_neg hc]
    have h1 : cache.length + 1 - 50 = 0 := by omega
    rw [h1, List.drop_zero]

/-- Folding appends over a bounded cache keeps exactly the last 50 items. -/
theorem foldl_appendCache {α : Type} (recs : List α) (cache : List α)
    (h : cache.length ≤ 50) :
    List.foldl appendCache cache recs =
      (cache ++ recs).drop (cache.length + recs.length - 50) := by
  induction recs generalizing cache with
  | nil =>
    simp only [List.foldl_nil, List.append_nil, List.length_nil, Nat.add_zero]
    have h1 : cache.length - 50 = 0 := by omega
    rw [h1, List.drop_zero]
  | cons p rest ih =>
    rw [List.foldl_cons, appendCache_eq cache p h]
    by_cases hc : cache.length = 50
    · have h1 : cache.length + 1 - 50 = 1 := by omega
      rw [h1]
      rcases cache with _ | ⟨a, ctail⟩
      · simp at hc
      · have hct : ctail.length = 49 := by
          simp at hc
          omega
        simp only [List.cons_append, List.drop_succ_cons, List.drop_zero]
        rw [ih (ctail ++ [p]) (by simp [hct])]
        have hidx : (ctail ++ [p]).length + rest.length - 50 =
            ctail.length + rest.length + 1 - 50 := by
          simp
          omega
        rw [hidx]
        have hidx2 : (a :: ctail).length + (p :: rest).length - 50 =
            (ctail.length + rest.length + 1 - 50) + 1 := by
          simp
          omega
        rw [hidx2]
        simp only [List.cons_append, List.drop_succ_cons, List.append_assoc,
          List.singleton_append, List.nil_append]
    · have hlt : cache.length < 50 := by omega
      have h1 : cache.length + 1 - 50 = 0 := by omega
      rw [h1, List.drop_zero]
      rw [ih (cache ++ [p]) (by simp; omega)]
      congr 1
      · simp
        omega
      · simp

/-- The parsing loop succeeds exactly on files whose scanned lines are all
well formed or blank, and then yields the records in order. -/
theorem parseLines_eq (l : List LogLine) :
    parseLines l = if l.any LogLine.isMalformed
      then none else some (l.filterMap LogLine.record?) := by
  induction l with
  | nil => rfl
  | cons ln rest ih =>
    cases ln with
    | blank =>
      simp only [parseLines, ih, List.any_cons, List.filterMap_cons,
        LogLine.isMalformed, LogLine.record?, Bool.false_or]
    | wellFormed r =>
      simp only [parseLines, ih, List.any_cons, List.filterMap_cons,
        LogLine.isMalformed, LogLine.record?, Bool.false_or]
      by_cases hm : rest.any LogLine.isMalformed = true
      · rw [if_pos hm, if_pos hm]
        rfl
      · simp only [Bool.not_eq_true] at hm
        rw [if_neg (by simp [hm]), if_neg (by simp [hm])]
        rfl
    | malformed =>
      simp [parseLines, LogLine.isMalformed]

/-- Characters of a concatenation. -/
theorem str_data_append (s t : String) : (s ++ t).data = s.data ++ t.data := by
  obtain ⟨ls⟩ := s
  obtain ⟨lt⟩ := t
  rfl

/-- A list starting with the pattern passes the prefix test. -/
theorem startsWithHist_prefix (s : List Char) :
    startsWithHist (histPat ++ s) = true := by
  unfold startsWithHist
  rw [decide_eq_true_eq]
  have h8 : (8 : Nat) = histPat.length := rfl
  rw [h8, List.take_left]

/-- Stepping the replace loop over a matched occurrence. -/
theorem replaceHistFuel_cons_pos (fuel : Nat) (c : Char) (rest : List Char)
    (h : startsWithHist (c :: rest) = true) :
    replaceHistFuel (fuel + 1) (c :: rest) =
      replaceHistFuel fuel ((c :: rest).drop 8) := by
  simp [replaceHistFuel, h]

/-- The replace loop leaves a pattern-free list unchanged. -/
theorem replaceHistFuel_no_occurrence (fuel : Nat) (l : List Char)
    (hf : l.length ≤ fuel) (h : hasHist l = false) : replaceHistFuel fuel l = l := by
  induction fuel generalizing l with
  | zero =>
    cases l with
    | nil => rfl
    | cons c rest => simp at hf
  | succ n ih =>
    cases l with
    | nil => rfl
    | cons c rest =>
      have h2 : startsWithHist (c :: rest) = false ∧ hasHist rest = false := by
        simpa [hasHist] using h
      simp only [replaceHistFuel, h2.1, Bool.false_eq_true, if_false]
      rw [ih rest (by simp at hf; omega) h2.2]

/-- Removing the occurrences from `history_ ++ s` when `s` itself is
pattern-free yields `s`. -/
theorem replaceHistFuel_strip (s : List Char) (h : hasHist s = false) :
    replaceHistFuel (histPat ++ s).length (histPat ++ s) = s := by
  have hsw : startsWithHist (histPat ++ s) = true := startsWithHist_prefix s
  have hdrop : (histPat ++ s).drop 8 = s := by
    have h8 : (8 : Nat) = histPat.length := rfl
    rw [h8, List.drop_left]
  rcases hex : histPat ++ s with _ | ⟨c, rest⟩
  · exfalso
    have := congrArg List.length hex
    simp [histPat] at this
  · rw [hex] at hsw hdrop
    have hlen : rest.length + 1 = s.length + 8 := by
      have := congrArg List.length hex
      simp [histPat] at this
      omega
    show replaceHistFuel (rest.length + 1) (c :: rest) = s
    rw [replaceHistFuel_cons_pos _ _ _ hsw, hdrop]
    exact replaceHistFuel_no_occurrence _ _ (by omega) h

/-- Deriving the room name back from a log stem built over a pattern-free
sanitized name recovers that name. -/
theorem derivedRoomName_append (t : String) (h : hasHist t.data = false) :
    derivedRoomName ("history_" ++ t) = t := by
  obtain ⟨td⟩ := t
  unfold derivedRoomName
  have hd : ("history_" ++ String.mk td).data = histPat ++ td := by
    rw [str_data_append]
    rfl
  rw [hd, replaceHistFuel_strip td (by exact h)]

/-- Membership in the known-room listing. -/
theorem mem_list_rooms {x : String} {memRooms files : List String} :
    x ∈ list_rooms memRooms files ↔
      x ∈ memRooms ∨ ∃ st, st ∈ files ∧ derivedRoomName st = x ∧ x ≠ "" := by
  unfold list_rooms
  rw [mem_sortStr, List.mem_dedup, List.mem_append, List.mem_filterMap]
  simp only []
  constructor
  · rintro (hx | ⟨a, ha, hfa⟩)
    · exact Or.inl hx
    · by_cases hd : derivedRoomName a = ""
      · rw [if_pos hd] at hfa
        cases hfa
      · rw [if_neg hd] at hfa
        injection hfa with hh
        refine Or.inr ⟨a, ha, hh, ?_⟩
        rw [← hh]
        exact hd
  · rintro (hx | ⟨a, ha, hda, hne⟩)
    · exact Or.inl hx
    · refine Or.inr ⟨a, ha, ?_⟩
      rw [if_neg (by rw [hda]; exact hne), hda]

/-- Membership in the broadcast recipient list. -/
theorem mem_broadcastRecipients {clients : List String}
    {userRooms : List (String × String)} {room exclude : Option String} {u : String} :
    u ∈ broadcastRecipients clients userRooms room exclude ↔
      u ∈ clients ∧ bcastKeep userRooms room exclude u = true := by
  simp [broadcastRecipients, List.mem_filter]

/-- The broadcast loop never escapes with an exception and attempts exactly
the kept recipients, each outcome reflecting only that recipient's channel. -/
theorem broadcastE_ok (fail : String → Bool) (userRooms : List (String × String))
    (room exclude : Option String) (clients : List String) :
    broadcastE fail userRooms room exclude clients =
      Except.ok ((broadcastRecipients clients userRooms room exclude).map
        (fun u => (u, !fail u))) := by
  induction clients with
  | nil => rfl
  | cons u rest ih =>
    by_cases hk : bcastKeep userRooms room exclude u = true
    · by_cases hf : fail u = true
      · simp [broadcastE, sendResult, hk, hf, ih, broadcastRecipients,
          List.filter_cons]
      · simp only [Bool.not_eq_true] at hf
        simp [broadcastE, sendResult, hk, hf, ih, broadcastRecipients,
          List.filter_cons]
    · simp [broadcastE, hk, ih, broadcastRecipients, List.filter_cons]

/-- The kept recipients are exactly the sessions in the filtered room,
minus the excluded username, for nonempty (non-falsy) filters. -/
theorem bcastKeep_iff {userRooms : List (String × String)}
    {room exclude : Option String} {u : String}
    (hr : room ≠ some "") (he : exclude ≠ some "") :
    bcastKeep userRooms room exclude u = true ↔
      (∀ r, room = some r → dget userRooms u = some r) ∧ exclude ≠ some u := by
  unfold bcastKeep pyTruthy
  cases room with
  | none =>
    cases exclude with
    | none =>
      rw [if_neg (fun hh => Bool.false_ne_true hh.1),
        if_neg (fun hh => Bool.false_ne_true hh.1)]
      constructor
      · intro _
        exact ⟨fun r hR => Option.noConfusion hR, fun hh => Option.noConfusion hh⟩
      · intro _
        rfl
    | some e =>
      have hne : e ≠ "" := fun hh => he (by rw [hh])
      have hdece : decide (e ≠ "") = true := decide_eq_true hne
      by_cases hu : u = e
      · rw [if_pos ⟨hdece, hu⟩]
        constructor
        · intro hh
          exact absurd hh Bool.false_ne_true
        · rintro ⟨_, hex⟩
          exact absurd (by rw [hu]) hex
      · rw [if_neg (fun hh => hu hh.2), if_neg (fun hh => Bool.false_ne_true hh.1)]
        constructor
        · intro _
          exact ⟨fun r hR => Option.noConfusion hR,
            fun hh => hu (Option.some.inj hh).symm⟩
        · intro _
          rfl
  | some r =>
    have hrne2 : r ≠ "" := fun hh => hr (by rw [hh])
    have hdecr : decide (r ≠ "") = true := decide_eq_true hrne2
    cases exclude with
    | none =>
      rw [if_neg (fun hh => Bool.false_ne_true hh.1)]
      by_cases hd : dget userRooms u = some r
      · rw [if_neg (fun hh => hh.2 hd)]
        constructor
        · intro _
          refine ⟨fun r' hR => ?_, fun hh => Option.noConfusion hh⟩
          injection hR with h2
          rw [← h2]
          exact hd
        · intro _
          rfl
      · rw [if_pos ⟨hdecr, hd⟩]
        constructor
        · intro hh
          exact absurd hh Bool.false_ne_true
        · rintro ⟨h1, _⟩
          exact absurd (h1 r rfl) hd
    | some e =>
      have hne : e ≠ "" := fun hh => he (by rw [hh])
      have hdece : decide (e ≠ "") = true := decide_eq_true hne
      by_cases hu : u = e
      · rw [if_pos ⟨hdece, hu⟩]
        constructor
        · intro hh
          exact absurd hh Bool.false_ne_true
        · rintro ⟨_, hex⟩
          exact absurd (by rw [hu]) hex
      · rw [if_neg (fun hh => hu hh.2)]
        by_cases hd : dget userRooms u = some r
        · rw [if_neg (fun hh => hh.2 hd)]
          constructor
          · intro _
            refine ⟨fun r' hR => ?_, fun hh => hu (Option.some.inj hh).symm⟩
            injection hR with h2
            rw [← h2]
            exact hd
          · intro _
            rfl
        · rw [if_pos ⟨hdecr, hd⟩]
          constructor
          · intro hh
            exact absurd hh Bool.false_ne_true
          · rintro ⟨h1, _⟩
            exact absurd (h1 r rfl) hd

/-- C1: in every reachable server state, every user with an active session
(a key of the clients map) is assigned via user_rooms to a room that is a
key of rooms, and that room's member set contains the user; reachability
makes this closed under login, message handling, join_room and disconnect
cleanup. -/
theorem C1_active_session_room_consistent (s : SState) (h : Reachable s) :
    ActiveConsistent s := by
  obtain ⟨h1, h2, h3⟩ := reachable_inv h
  intro u hu
  obtain ⟨r, hr⟩ := (h1 u).1 hu
  obtain ⟨hne, ms, hms, hmem⟩ := h2 u r hr
  exact ⟨r, ms, hr, hms, hmem⟩

/-- Witness for C1 at the state reached by one successful login. -/
theorem C1_active_session_room_consistent_witness : ActiveConsistent loggedIn :=
  C1_active_session_room_consistent loggedIn
    (Reachable.hs Reachable.init (fun _ => []) (InEvent.login (some "alice")))

/-- C2: iterating the append_history cache update on a fresh room cache
keeps all records in append order while N ≤ 50, keeps exactly the last 50
in order beyond that (oldest evicted first, FIFO), and never exceeds 50
entries. -/
theorem C2_history_cache_fifo {α : Type} (records : List α) :
    (records.length ≤ 50 → appendN records = records) ∧
    (50 < records.length →
      appendN records = records.drop (records.length - 50) ∧
      (appendN records).length = 50) ∧
    (appendN records).length ≤ 50 := by
  have hbase := foldl_appendCache records ([] : List α) (by simp)
  simp only [List.nil_append, List.length_nil, Nat.zero_add] at hbase
  refine ⟨?_, ?_, ?_⟩
  · intro hle
    have h1 : records.length - 50 = 0 := by omega
    rw [appendN, hbase, h1, List.drop_zero]
  · intro hlt
    constructor
    · rw [appendN, hbase]
    · rw [appendN, hbase, List.length_drop]
      omega
  · rw [appendN, hbase, List.length_drop]
    omega

set_option maxRecDepth 8000 in
/-- Witness for C2 at 3 and at 51 appended records. -/
theorem C2_history_cache_fifo_witness :
    appendN (List.range 3) = List.range 3 ∧
    appendN (List.range 51) = (List.range 51).drop 1 := by
  constructor
  · exact (C2_history_cache_fifo (List.range 3)).1 (by decide)
  · have h := ((C2_history_cache_fifo (List.range 51)).2.1 (by decide)).1
    simpa using h

/-- C3: a first login with a username that is already a key of the session
registry sends the already-in-use error, closes the connection, and
returns every registry exactly as it was. -/
theorem C3_duplicate_login (loadH : String → List Payload) (s : SState)
    (uname : Option String) (req : String) (hreq : pyStrip (uname.getD "") = req)
    (hne : req ≠ "") (hdup : req ∈ s.clients) :
    handshake loadH s (InEvent.login uname) =
      (s, [Eff.sendSelf (Payload.error "Ese username ya está en uso."), Eff.close]) := by
  simp only [handshake, hreq]
  rw [if_neg hne, if_pos hdup]

/-- Witness for C3: logging in as "alice" while "alice" is active. -/
theorem C3_duplicate_login_witness :
    handshake (fun _ => []) demoState (InEvent.login (some "alice")) =
      (demoState,
        [Eff.sendSelf (Payload.error "Ese username ya está en uso."), Eff.close]) :=
  C3_duplicate_login (fun _ => []) demoState (some "alice") "alice" (by decide)
    (by decide) (by decide)

/-- C7: a message event whose text strips to empty causes no history
append, no broadcast and no reply, and returns every registry, the cache
and the (unwritten) log untouched. -/
theorem C7_whitespace_message (loadH : String → List Payload)
    (fileStems : List String) (s : SState) (u : String) (txt : Option String)
    (ts : Nat) (h : pyStrip (txt.getD "") = "") :
    handleEvent loadH fileStems s u (InEvent.message txt) ts = (s, []) := by
  simp only [handleEvent]
  rw [if_pos h]

/-- Witness for C7 on a whitespace-only text. -/
theorem C7_whitespace_message_witness :
    handleEvent (fun _ => []) [] demoState "alice" (InEvent.message (some "   ")) 7 =
      (demoState, []) :=
  C7_whitespace_message (fun _ => []) [] demoState "alice" (some "   ") 7 (by decide)

/-- C10: every failed login handshake (first event not a login, username
empty after strip, or username already active) replies with one error and
a close, leaves the state exactly as before, emits no broadcast of any
kind, and the finally-block cleanup afterwards is a no-op. -/
theorem C10_failed_handshake (loadH : String → List Payload) (s : SState)
    (ev : InEvent)
    (h : ∀ uname, ev = InEvent.login uname →
      pyStrip (uname.getD "") = "" ∨ pyStrip (uname.getD "") ∈ s.clients) :
    (handshake loadH s ev).1 = s ∧
    (∃ m, (handshake loadH s ev).2 = [Eff.sendSelf (Payload.error m), Eff.close]) ∧
    (∀ p r ex, Eff.broadcastEff p r ex ∉ (handshake loadH s ev).2) ∧
    disconnectCleanup (handshake loadH s ev).1 none = ((handshake loadH s ev).1, []) := by
  cases ev with
  | login uname =>
    by_cases he : pyStrip (uname.getD "") = ""
    · simp only [handshake]
      rw [if_pos he]
      exact ⟨rfl, ⟨_, rfl⟩, fun p r ex hmem => by simp at hmem, rfl⟩
    · have hdup : pyStrip (uname.getD "") ∈ s.clients := (h uname rfl).resolve_left he
      simp only [handshake]
      rw [if_neg he, if_pos hdup]
      exact ⟨rfl, ⟨_, rfl⟩, fun p r ex hmem => by simp at hmem, rfl⟩
  | message txt =>
    exact ⟨rfl, ⟨_, rfl⟩, fun p r ex hmem => by simp [handshake] at hmem, rfl⟩
  | roomsQuery =>
    exact ⟨rfl, ⟨_, rfl⟩, fun p r ex hmem => by simp [handshake] at hmem, rfl⟩
  | roomWho =>
    exact ⟨rfl, ⟨_, rfl⟩, fun p r ex hmem => by simp [handshake] at hmem, rfl⟩
  | joinRoom rm =>
    exact ⟨rfl, ⟨_, rfl⟩, fun p r ex hmem => by simp [handshake] at hmem, rfl⟩
  | other t =>
    exact ⟨rfl, ⟨_, rfl⟩, fun p r ex hmem => by simp [handshake] at hmem, rfl⟩

/-- Witness for C10 on a first event that is not a login. -/
theorem C10_failed_handshake_witness :
    (handshake (fun _ => []) demoState (InEvent.other "ping")).1 = demoState ∧
    (∃ m, (handshake (fun _ => []) demoState (InEvent.other "ping")).2 =
      [Eff.sendSelf (Payload.error m), Eff.close]) ∧
    (∀ p r ex, Eff.broadcastEff p r ex ∉
      (handshake (fun _ => []) demoState (InEvent.other "ping")).2) ∧
    disconnectCleanup (handshake (fun _ => []) demoState (InEvent.other "ping")).1 none =
      ((handshake (fun _ => []) demoState (InEvent.other "ping")).1, []) :=
  C10_failed_handshake (fun _ => []) demoState (InEvent.other "ping")
    (fun uname hh => by cases hh)

/-- C4: broadcast attempts delivery to exactly the registered sessions
whose current room matches the filter (all sessions when no room is
given), skipping the excluded username; each recipient's outcome depends
only on its own channel, send failures are swallowed, and the loop returns
normally — it never raises to its caller.  (Room filters and exclusions
are room/user names, hence nonempty when present.) -/
theorem C4_broadcast_best_effort (fail : String → Bool)
    (clients : List String) (userRooms : List (String × String))
    (room exclude : Option String) (hr : room ≠ some "") (he : exclude ≠ some "") :
    broadcastE fail userRooms room exclude clients =
      Except.ok ((broadcastRecipients clients userRooms room exclude).map
        (fun u => (u, !fail u))) ∧
    (∀ u, u ∈ broadcastRecipients clients userRooms room exclude ↔
      u ∈ clients ∧ (∀ r, room = some r → dget userRooms u = some r) ∧
        exclude ≠ some u) := by
  refine ⟨broadcastE_ok fail userRooms room exclude clients, fun u => ?_⟩
  rw [mem_broadcastRecipients, bcastKeep_iff hr he]

/-- Witness for C4: a room-filtered broadcast where one channel fails. -/
theorem C4_broadcast_best_effort_witness :
    broadcastE (fun u => decide (u = "bob"))
        [("alice", "general"), ("bob", "general"), ("carol", "dev")]
        (some "general") none ["alice", "bob", "carol"] =
      Except.ok [("alice", true), ("bob", false)] := by
  have h := (C4_broadcast_best_effort (fun u => decide (u = "bob"))
    ["alice", "bob", "carol"]
    [("alice", "general"), ("bob", "general"), ("carol", "dev")]
    (some "general") none (by decide) (by decide)).1
  rw [h]
  rfl

/-- C5 as stated fails on the code: json.loads runs inside the catch-all
try of load_history, so one malformed line makes the whole call return []
— the well-formed line is not returned. -/
theorem C5_counterexample :
    load_history (some [LogLine.wellFormed samplePayload, LogLine.malformed]) 50 = [] ∧
    [samplePayload] ≠ ([] : List Payload) := by
  constructor
  · rfl
  · simp

/-- C5 (amended): load_history never raises and returns at most the last
50 entries in chronological order, blank lines skipped; but if any scanned
line is malformed — or the file is absent or unreadable — the result is
the empty sequence (the whole read degrades, single lines are not
skipped). -/
theorem C5_load_history_amended (file : Option (List LogLine)) :
    (load_history file 50).length ≤ 50 ∧
    (file = none → load_history file 50 = []) ∧
    (∀ lines, file = some lines →
      ((lines.drop (lines.length - 50)).any LogLine.isMalformed = true →
        load_history file 50 = []) ∧
      ((lines.drop (lines.length - 50)).any LogLine.isMalformed = false →
        load_history file 50 =
          (lines.drop (lines.length - 50)).filterMap LogLine.record?)) := by
  cases file with
  | none =>
    exact ⟨by simp [load_history], fun _ => rfl, fun lines hh => by cases hh⟩
  | some lines =>
    have hp := parseLines_eq (lines.drop (lines.length - 50))
    refine ⟨?_, ?_, ?_⟩
    case refine_2 =>
      intro hh
      cases hh
    case refine_3 =>
      intro ls hls
      injection hls with hh
      subst hh
      constructor
      · intro hm
        simp [load_history, hp, hm]
      · intro hm
        simp [load_history, hp, hm]
    · by_cases hm : (lines.drop (lines.length - 50)).any LogLine.isMalformed = true
      · simp [load_history, hp, hm]
      · simp only [Bool.not_eq_true] at hm
        simp only [load_history, hp, hm, Bool.false_eq_true, if_false]
        calc ((lines.drop (lines.length - 50)).filterMap LogLine.record?).length
            ≤ (lines.drop (lines.length - 50)).length := List.length_filterMap_le _ _
          _ ≤ 50 := by rw [List.length_drop]; omega

/-- Witness for C5 (amended) on a log with a blank and a good line. -/
theorem C5_load_history_amended_witness :
    load_history (some [LogLine.blank, LogLine.wellFormed samplePayload]) 50 =
      [samplePayload] := by
  have h := ((C5_load_history_amended
      (some [LogLine.blank, LogLine.wellFormed samplePayload])).2.2
      [LogLine.blank, LogLine.wellFormed samplePayload] rfl).2 (by decide)
  exact h.trans (by decide)

/-- The sanitized room name is never empty (it falls back to "general"). -/
theorem sanitize_ne_empty (r : String) : sanitize r ≠ "" := by
  simp only [sanitize]
  by_cases ht : pyStrip (String.mk (r.data.filter
      (fun c => c.isAlphanum || c = '-' || c = '_'))) = ""
  · rw [if_pos ht]
    decide
  · rw [if_neg ht]
    exact ht

/-- C8 as stated fails on the code: list_rooms derives the room name with
`stem.replace("history_", "")`, which removes every occurrence, so for
room "history_a!" (sanitized "history_a") the derived name is "a" and the
listing contains neither derived nor sanitized name equal to
"history_a". -/
theorem C8_counterexample :
    sanitize "history_a!" = "history_a" ∧
    derivedRoomName (roomFileStem "history_a!") = "a" ∧
    derivedRoomName (roomFileStem "history_a!") ≠ sanitize "history_a!" ∧
    "history_a" ∉ list_rooms ["general", "history_a!"] [roomFileStem "history_a!"] := by
  refine ⟨by decide, by decide, by decide, by decide⟩

/-- C8 (amended): the derived name is the stem with every occurrence of
"history_" removed (empty results skipped), so the round trip recovers the
sanitized name exactly when that name contains no "history_" substring;
after the log file exists the listing then contains the sanitized name,
and in general the listing is exactly the union of registry room names and
derived file names. -/
theorem C8_known_rooms_amended (memRooms files : List String) (r : String)
    (h : hasHist (sanitize r).data = false) :
    derivedRoomName (roomFileStem r) = sanitize r ∧
    (roomFileStem r ∈ files → sanitize r ∈ list_rooms memRooms files) ∧
    (∀ x, x ∈ list_rooms memRooms files ↔
      x ∈ memRooms ∨ ∃ st, st ∈ files ∧ derivedRoomName st = x ∧ x ≠ "") := by
  have hrt : derivedRoomName (roomFileStem r) = sanitize r := by
    unfold roomFileStem
    exact derivedRoomName_append (sanitize r) h
  refine ⟨hrt, ?_, fun x => mem_list_rooms⟩
  intro hf
  rw [mem_list_rooms]
  exact Or.inr ⟨roomFileStem r, hf, hrt, sanitize_ne_empty r⟩

/-- Witness for C8 (amended) on room "lobby". -/
theorem C8_known_rooms_amended_witness :
    derivedRoomName (roomFileStem "lobby") = sanitize "lobby" ∧
    (roomFileStem "lobby" ∈ [roomFileStem "lobby"] →
      sanitize "lobby" ∈ list_rooms ["general"] [roomFileStem "lobby"]) ∧
    (∀ x, x ∈ list_rooms ["general"] [roomFileStem "lobby"] ↔
      x ∈ ["general"] ∨ ∃ st, st ∈ [roomFileStem "lobby"] ∧
        derivedRoomName st = x ∧ x ≠ "") :=
  C8_known_rooms_amended ["general"] [roomFileStem "lobby"] "lobby" (by decide)

/-- C6: when an active user's connection terminates, the cleanup removes
the session and the membership of the user's current room, broadcasts
user_left whose recipients are exactly the remaining members of that room,
and afterwards the user appears neither in online_usernames() nor in any
room's member listing. -/
theorem C6_disconnect_cleanup (s : SState) (u : String) (h : Reachable s)
    (hu : u ∈ s.clients) :
    ∃ room ms, dget s.userRooms u = some room ∧ dget s.rooms room = some ms ∧
      u ∉ (disconnectCleanup s (some u)).1.clients ∧
      u ∉ onlineUsers (disconnectCleanup s (some u)).1 ∧
      (∀ r ms', dget (disconnectCleanup s (some u)).1.rooms r = some ms' → u ∉ ms') ∧
      (disconnectCleanup s (some u)).2 =
        [Eff.broadcastEff (Payload.userLeft u room (sortStr (sdiscard ms u)))
          (some room) none] ∧
      (∀ v, v ∈ broadcastRecipients (disconnectCleanup s (some u)).1.clients
          (disconnectCleanup s (some u)).1.userRooms (some room) none ↔
        v ∈ sdiscard ms u) := by
  obtain ⟨h1, h2, h3⟩ := reachable_inv h
  obtain ⟨room, hroom⟩ := (h1 u).1 hu
  obtain ⟨hroomne, ms, hms, hmem⟩ := h2 u room hroom
  have hfst : (disconnectCleanup s (some u)).1 = disconnectState s u := rfl
  have hgd : (dget s.userRooms u).getD "general" = room := by
    rw [hroom]
    rfl
  have hdrooms : ∀ r, dget (disconnectState s u).rooms r =
      if r = room then (dget s.rooms r).map (fun ms2 => sdiscard ms2 u)
      else dget s.rooms r := by
    intro r
    rw [disconnectState_rooms_dget, hgd]
  have hdur : ∀ v, dget (disconnectState s u).userRooms v =
      if v = u then none else dget s.userRooms v :=
    fun v => disconnectState_userRooms_dget s u v
  refine ⟨room, ms, hroom, hms, ?_, ?_, ?_, ?_, ?_⟩
  · rw [hfst, disconnectState_clients]
    intro hmem2
    rw [List.mem_filter] at hmem2
    simp at hmem2
  · rw [hfst]
    unfold onlineUsers
    rw [mem_sortStr, disconnectState_clients]
    intro hmem2
    rw [List.mem_filter] at hmem2
    simp at hmem2
  · intro r ms' hms' hmem'
    rw [hfst, hdrooms r] at hms'
    by_cases hr : r = room
    · rw [if_pos hr] at hms'
      rcases hg : dget s.rooms r with _ | ms0
      · rw [hg] at hms'
        cases hms'
      · rw [hg] at hms'
        injection hms' with hh
        subst hh
        rw [mem_sdiscard] at hmem'
        exact hmem'.2 rfl
    · rw [if_neg hr] at hms'
      have hctr := h3 r ms' u hms' hmem'
      rw [hroom] at hctr
      injection hctr with hh
      exact hr hh.symm
  · have hsnd : (disconnectCleanup s (some u)).2 =
        [Eff.broadcastEff (Payload.userLeft u ((dget s.userRooms u).getD "general")
          (roomUsersOf (disconnectState s u) ((dget s.userRooms u).getD "general")))
          (some ((dget s.userRooms u).getD "general")) none] := rfl
    rw [hsnd, hgd]
    have hru : roomUsersOf (disconnectState s u) room = sortStr (sdiscard ms u) := by
      unfold roomUsersOf
      rw [hdrooms room, if_pos rfl, hms]
      rfl
    rw [hru]
  · intro v
    rw [hfst]
    rw [mem_broadcastRecipients,
      bcastKeep_iff (fun hh => hroomne (Option.some.inj hh))
        (fun hh => Option.noConfusion hh),
      disconnectState_clients]
    constructor
    · rintro ⟨hvc, hvr, _⟩
      have hvroom := hvr room rfl
      rw [hdur v] at hvroom
      by_cases hv : v = u
      · rw [if_pos hv] at hvroom
        cases hvroom
      · rw [if_neg hv] at hvroom
        obtain ⟨_, ms2, hms2, hvm⟩ := h2 v room hvroom
        rw [hms] at hms2
        injection hms2 with hh
        rw [mem_sdiscard]
        refine ⟨?_, hv⟩
        rw [hh]
        exact hvm
    · intro hvm
      rw [mem_sdiscard] at hvm
      obtain ⟨hvms, hvu⟩ := hvm
      have hvr := h3 room ms v hms hvms
      have hvc : v ∈ s.clients := (h1 v).2 ⟨room, hvr⟩
      refine ⟨?_, ?_, fun hh => Option.noConfusion hh⟩
      · rw [List.mem_filter]
        exact ⟨hvc, by simp [hvu]⟩
      · intro r' hR
        injection hR with h2'
        rw [hdur v, if_neg hvu, ← h2']
        exact hvr

/-- Witness for C6: "alice" disconnects while "alice" and "bob" are both
in "general". -/
theorem C6_disconnect_cleanup_witness :
    ∃ room ms, dget loggedIn2.userRooms "alice" = some room ∧
      dget loggedIn2.rooms room = some ms ∧
      "alice" ∉ (disconnectCleanup loggedIn2 (some "alice")).1.clients ∧
      "alice" ∉ onlineUsers (disconnectCleanup loggedIn2 (some "alice")).1 ∧
      (∀ r ms', dget (disconnectCleanup loggedIn2 (some "alice")).1.rooms r = some ms' →
        "alice" ∉ ms') ∧
      (disconnectCleanup loggedIn2 (some "alice")).2 =
        [Eff.broadcastEff (Payload.userLeft "alice" room (sortStr (sdiscard ms "alice")))
          (some room) none] ∧
      (∀ v, v ∈ broadcastRecipients (disconnectCleanup loggedIn2 (some "alice")).1.clients
          (disconnectCleanup loggedIn2 (some "alice")).1.userRooms (some room) none ↔
        v ∈ sdiscard ms "alice") :=
  C6_disconnect_cleanup loggedIn2 "alice"
    (Reachable.hs (Reachable.hs Reachable.init (fun _ => [])
      (InEvent.login (some "alice"))) (fun _ => []) (InEvent.login (some "bob")))
    (by decide)

/-- C9: a join_room event naming the user's current room leaves the member
sets, room assignments and sessions unchanged, yet still sends the join
confirmation, replays the room's history, and broadcasts user_left_room to
that room without excluding the sender — so the sender and every member
are among the recipients even though no one left. -/
theorem C9_self_join (loadH : String → List Payload) (fileStems : List String)
    (s : SState) (u : String) (rm : Option String) (ts : Nat) (room : String)
    (hreach : Reachable s) (hu : u ∈ s.clients)
    (hrm : pyStrip (rm.getD "") = room)
    (hcur : dget s.userRooms u = some room) :
    ∃ (ms : List String) (hist : List Payload),
      dget s.rooms room = some ms ∧ u ∈ ms ∧
      (handleEvent loadH fileStems s u (InEvent.joinRoom rm) ts).1.rooms = s.rooms ∧
      (handleEvent loadH fileStems s u (InEvent.joinRoom rm) ts).1.userRooms =
        s.userRooms ∧
      (handleEvent loadH fileStems s u (InEvent.joinRoom rm) ts).1.clients =
        s.clients ∧
      (handleEvent loadH fileStems s u (InEvent.joinRoom rm) ts).2 =
        Eff.sendSelf (Payload.info ("Te uniste a la sala \x27" ++ room ++ "\x27") room)
          :: hist.map Eff.sendSelf
          ++ [Eff.broadcastEff (Payload.userLeftRoom u room (sortStr ms))
                (some room) none,
              Eff.broadcastEff (Payload.userJoinedRoom u room (sortStr ms))
                (some room) (some u)] ∧
      (∀ v, v ∈ broadcastRecipients s.clients s.userRooms (some room) none ↔ v ∈ ms) ∧
      u ∈ broadcastRecipients s.clients s.userRooms (some room) none := by
  obtain ⟨h1, h2, h3⟩ := reachable_inv hreach
  obtain ⟨hroomne, ms, hms, hmem⟩ := h2 u room hcur
  have hstep : handleEvent loadH fileStems s u (InEvent.joinRoom rm) ts =
      (ensureRoom loadH (ensureRoom loadH s room) room,
       Eff.sendSelf (Payload.info ("Te uniste a la sala \x27" ++ room ++ "\x27") room)
         :: ((dget (ensureRoom loadH (ensureRoom loadH s room) room).cache room).getD
              []).map Eff.sendSelf
         ++ [Eff.broadcastEff (Payload.userLeftRoom u room
               (roomUsersOf (ensureRoom loadH (ensureRoom loadH s room) room) room))
               (some room) none,
             Eff.broadcastEff (Payload.userJoinedRoom u room
               (roomUsersOf (ensureRoom loadH (ensureRoom loadH s room) room) room))
               (some room) (some u)]) := by
    simp only [handleEvent, hrm]
    rw [if_neg hroomne]
    have hold : (dget (ensureRoom loadH s room).userRooms u).getD "general" = room := by
      rw [ensureRoom_userRooms, hcur]
      rfl
    rw [hold, if_neg (fun hh => hh rfl)]
  have hin : (ensureRoom loadH s room).rooms = s.rooms :=
    ensureRoom_rooms_of_isSome loadH (by rw [hms]; rfl)
  have hout : (ensureRoom loadH (ensureRoom loadH s room) room).rooms =
      (ensureRoom loadH s room).rooms :=
    ensureRoom_rooms_of_isSome loadH (by rw [hin, hms]; rfl)
  have hrooms : (ensureRoom loadH (ensureRoom loadH s room) room).rooms = s.rooms :=
    hout.trans hin
  have hru : roomUsersOf (ensureRoom loadH (ensureRoom loadH s room) room) room =
      sortStr ms := by
    unfold roomUsersOf
    rw [hrooms, hms]
    rfl
  have hrecip : ∀ v,
      v ∈ broadcastRecipients s.clients s.userRooms (some room) none ↔ v ∈ ms := by
    intro v
    rw [mem_broadcastRecipients,
      bcastKeep_iff (fun hh => hroomne (Option.some.inj hh))
        (fun hh => Option.noConfusion hh)]
    constructor
    · rintro ⟨hvc, hvr, _⟩
      have hvroom := hvr room rfl
      obtain ⟨_, ms2, hms2, hvm⟩ := h2 v room hvroom
      rw [hms] at hms2
      injection hms2 with hh
      rw [hh]
      exact hvm
    · intro hvm
      have hvr := h3 room ms v hms hvm
      exact ⟨(h1 v).2 ⟨room, hvr⟩,
        fun r' hR => by
          injection hR with h2'
          rw [← h2']
          exact hvr,
        fun hh => Option.noConfusion hh⟩
  refine ⟨ms, (dget (ensureRoom loadH (ensureRoom loadH s room) room).cache room).getD [],
    hms, hmem, ?_, ?_, ?_, ?_, hrecip, (hrecip u).2 hmem⟩
  · rw [hstep]
    exact hrooms
  · rw [hstep]
    rw [ensureRoom_userRooms, ensureRoom_userRooms]
  · rw [hstep]
    rw [ensureRoom_clients, ensureRoom_clients]
  · rw [hstep, hru]

/-- Witness for C9: "alice" joins "general" while already there. -/
theorem C9_self_join_witness :
    ∃ (ms : List String) (hist : List Payload),
      dget loggedIn.rooms "general" = some ms ∧ "alice" ∈ ms ∧
      (handleEvent (fun _ => []) [] loggedIn "alice"
        (InEvent.joinRoom (some "general")) 7).1.rooms = loggedIn.rooms ∧
      (handleEvent (fun _ => []) [] loggedIn "alice"
        (InEvent.joinRoom (some "general")) 7).1.userRooms = loggedIn.userRooms ∧
      (handleEvent (fun _ => []) [] loggedIn "alice"
        (InEvent.joinRoom (some "general")) 7).1.clients = loggedIn.clients ∧
      (handleEvent (fun _ => []) [] loggedIn "alice"
        (InEvent.joinRoom (some "general")) 7).2 =
        Eff.sendSelf (Payload.info ("Te uniste a la sala \x27" ++ "general" ++ "\x27")
            "general")
          :: hist.map Eff.sendSelf
          ++ [Eff.broadcastEff (Payload.userLeftRoom "alice" "general" (sortStr ms))
                (some "general") none,
              Eff.broadcastEff (Payload.userJoinedRoom "alice" "general" (sortStr ms))
                (some "general") (some "alice")] ∧
      (∀ v, v ∈ broadcastRecipients loggedIn.clients loggedIn.userRooms
        (some "general") none ↔ v ∈ ms) ∧
      "alice" ∈ broadcastRecipients loggedIn.clients loggedIn.userRooms
        (some "general") none :=
  C9_self_join (fun _ => []) [] loggedIn "alice" (some "general") 7 "general"
    (Reachable.hs Reachable.init (fun _ => []) (InEvent.login (some "alice")))
    (by decide) (by decide) (by decide)

end ChatServer
